import Mathlib

/-!
Verification of the depth-chart interaction engine (`UI` in
`src/feature/depth-chart/ui.ts`) and the axis tick reconciler
(`HorizontalAxis`).  Pixel coordinates and data values are embedded as
rationals; machine floats are modelled exactly, with the JavaScript `NaN`
and infinities represented explicitly where the code can produce them.
-/

namespace DepthChart


/-- d3-array `bisectLeft` on an ascending list: the first index whose element
is at least `x` (the list length when every element is smaller). -/

def bisectLeft (a : List ℚ) (x : ℚ) : Nat :=
  a.findIdx (fun v => decide (x ≤ v))

/-- d3-array `bisectRight` on an ascending list: the first index whose element
is strictly greater than `x` (the list length when no element is). -/

def bisectRight (a : List ℚ) (x : ℚ) : Nat :=
  a.findIdx (fun v => decide (x < v))

/-- Modelled from the spec: `bisectCenter`, imported by the pointer handler
from `../../util/math/array`, is not among the sources.  Per the spec it is a
centered bisection returning the index minimizing `|prices[i] - x|`, ties
broken toward the lower index, and the last index for `x` beyond the last
price. -/

def bisectCenter (a : List ℚ) (x : ℚ) : Nat :=
  let i := bisectLeft a x
  if i = 0 then 0
  else if a.length ≤ i then a.length - 1
  else if x - a.getD (i - 1) 0 ≤ a.getD i 0 - x then i - 1 else i






/-- Result of the non-auction pointer-move side computation
(`ui.ts` lines 566-601): indices into `prices` (`-1` is the disabled
sentinel) and the pixel positions of the two curve indicators. -/

structure SideIndices where
  buyIndex : ℤ
  sellIndex : ℤ
  buyNearestX : ℚ
  sellNearestX : ℚ
deriving DecidableEq, Repr

/-- The side computation of `UI.onPointerMove` (`ui.ts` lines 566-601).
`x` is the pointer position in device pixels, `width` the gutter-adjusted
chart width computed at line 487, and `scaleMid` the value of
`priceScale(midPrice)`.  The source branches on `x > width / 2`. -/

def computeSides (prices : List ℚ) (x width scaleMid : ℚ) : SideIndices :=
  let index := bisectCenter prices x
  let nearestX := prices.getD index 0
  if width / 2 < x then
    { buyIndex :=
        if width / 2 ≤ prices.getD 0 0 then -1
        else (bisectLeft prices (2 * scaleMid - nearestX) : ℤ) - 1
      sellIndex := (index : ℤ)
      buyNearestX := 2 * scaleMid - nearestX
      sellNearestX := nearestX }
  else
    { buyIndex := (index : ℤ)
      sellIndex :=
        if prices.getD (prices.length - 1) 0 ≤ width / 2 then -1
        else (bisectRight prices (2 * scaleMid - nearestX) : ℤ) - 1
      buyNearestX := nearestX
      sellNearestX := 2 * scaleMid - nearestX }

/-- Visibility of the buy-side overlay group (`ui.ts` lines 772-788):
shown only if the inverted indicator position is inside the price domain,
buy prices are present left of the centre, and the index is not `-1`. -/

def buyOverlayVisible (r : SideIndices) (prices : List ℚ) (width : ℚ)
    (invert : ℚ → ℚ) (d0 : ℚ) : Bool :=
  decide (d0 < invert r.buyNearestX) &&
    decide (prices.getD 0 0 < width / 2) && !(decide (r.buyIndex = -1))

/-- Visibility of the sell-side overlay group (`ui.ts` lines 790-806). -/

def sellOverlayVisible (r : SideIndices) (prices : List ℚ) (width : ℚ)
    (invert : ℚ → ℚ) (d1 : ℚ) : Bool :=
  decide (invert r.sellNearestX < d1) &&
    decide (width / 2 < prices.getD (prices.length - 1) 0) &&
    !(decide (r.sellIndex = -1))




/-! ### Axis tick reconciler (`HorizontalAxis.update`)

JavaScript `Map` caches are embedded as insertion-ordered association
lists; visual `Text` nodes are identified by allocation ids so that object
identity across frames is observable. -/

/-- JS `Map.has`. -/

def mapHas (m : List (String × Nat)) (k : String) : Bool :=
  m.any (fun p => p.1 == k)

/-- JS `Map.get` (`none` for a missing key). -/

def mapGet (m : List (String × Nat)) (k : String) : Option Nat :=
  (m.find? (fun p => p.1 == k)).map Prod.snd

/-- JS `Map.set`: overwrite in place, else append (insertion order kept). -/

def mapSet (m : List (String × Nat)) (k : String) (v : Nat) :
    List (String × Nat) :=
  if mapHas m k then m.map (fun p => if p.1 == k then (k, v) else p)
  else m ++ [(k, v)]

/-- JS `Map.delete`. -/

def mapDelete (m : List (String × Nat)) (k : String) : List (String × Nat) :=
  m.filter (fun p => !(p.1 == k))

def mapKeys (m : List (String × Nat)) : List String := m.map Prod.fst

/-- Assoc update for node positions (id → x pixel). -/

def setNodeX (m : List (Nat × ℚ)) (i : Nat) (v : ℚ) : List (Nat × ℚ) :=
  if m.any (fun p => p.1 == i) then
    m.map (fun p => if p.1 == i then (i, v) else p)
  else m ++ [(i, v)]

/-- State owned by `HorizontalAxis`: the two tick caches
(`nodeByKeyValue`, `tmByKeyValue`), the display-tree child list, the
positions of the owned nodes, and a fresh-id counter standing for object
allocation. -/

structure AxisState where
  nodeByKeyValue : List (String × Nat)
  tmByKeyValue : List (String × Nat)
  children : List Nat
  nodeX : List (Nat × ℚ)
  counter : Nat
deriving DecidableEq, Repr

def emptyAxisState : AxisState := ⟨[], [], [], [], 0⟩

/-- Enter phase for one tick (`part_000` lines 53-79): allocate a label
node and a tick-mark node, position both at `scale(tick)`, cache the label
under `fmt t` and the tick mark under `fmt t ++ "|"`, add both children. -/

def axisEnterStep (fmt : ℚ → String) (pos : ℚ → ℚ) (st : AxisState)
    (t : ℚ) : AxisState :=
  { st with
    counter := st.counter + 2
    nodeByKeyValue := mapSet st.nodeByKeyValue (fmt t) st.counter
    tmByKeyValue := mapSet st.tmByKeyValue (fmt t ++ "|") (st.counter + 1)
    children := st.children ++ [st.counter, st.counter + 1]
    nodeX := setNodeX (setNodeX st.nodeX st.counter (pos t))
      (st.counter + 1) (pos t) }

/-- Update phase for one tick (`part_000` lines 81-91): reposition the two
cached nodes (the source asserts both lookups succeed with `!`). -/

def axisUpdateStep (fmt : ℚ → String) (pos : ℚ → ℚ) (st : AxisState)
    (t : ℚ) : AxisState :=
  match mapGet st.nodeByKeyValue (fmt t), mapGet st.tmByKeyValue (fmt t ++ "|") with
  | some textId, some tmId =>
      { st with nodeX := setNodeX (setNodeX st.nodeX textId (pos t)) tmId (pos t) }
  | _, _ => st

/-- Exit phase for one stale key (`part_000` lines 93-101).  The tick-mark
node is looked up under `k ++ "|"`, but the cache delete is issued for key
`k` (the literal `tmByKeyValue.delete(node)` of the source), so only the
label cache entry is actually removed. -/

def axisExitStep (st : AxisState) (k : String) : AxisState :=
  { st with
    nodeByKeyValue := mapDelete st.nodeByKeyValue k
    tmByKeyValue := mapDelete st.tmByKeyValue k
    children :=
      match mapGet st.nodeByKeyValue k, mapGet st.tmByKeyValue (k ++ "|") with
      | some textId, some tmId => (st.children.erase textId).erase tmId
      | some textId, none => st.children.erase textId
      | none, some tmId => st.children.erase tmId
      | none, none => st.children }

/-- `HorizontalAxis.update` (`part_000` lines 30-102): partition the ticks
by formatted key into enter/update/exit against the label cache and run
the three phases.  `fmt` stands for `scale.tickFormat(numTicks)` and `pos`
for `scale`; tick generation itself belongs to the external scale. -/

def axisUpdate (s : AxisState) (ticks : List ℚ) (fmt : ℚ → String)
    (pos : ℚ → ℚ) : AxisState :=
  let enter := ticks.filter (fun t => !(mapHas s.nodeByKeyValue (fmt t)))
  let upd := ticks.filter (fun t => mapHas s.nodeByKeyValue (fmt t))
  let exit := (mapKeys s.nodeByKeyValue).filter
    (fun k => !((ticks.map fmt).contains k))
  exit.foldl axisExitStep
    (upd.foldl (axisUpdateStep fmt pos)
      (enter.foldl (axisEnterStep fmt pos) s))






/-! ### Ratio label text (`fRound` and the `.toFixed(2) + "%"` path)

JavaScript numbers on this path are either finite (modelled exactly as
rationals), `NaN`, or a signed infinity. -/

inductive JSNum where
  | num (q : ℚ)
  | nan
  | inf
  | ninf
deriving DecidableEq, Repr

/-- JS subtraction `a - b` with `b` finite. -/

def jsSub (a : JSNum) (b : ℚ) : JSNum :=
  match a with
  | .num q => .num (q - b)
  | .nan => .nan
  | .inf => .inf
  | .ninf => .ninf

/-- JS division `a / b` with `b` finite (division by zero yields a signed
infinity, `0 / 0` yields `NaN`). -/

def jsDiv (a : JSNum) (b : ℚ) : JSNum :=
  match a with
  | .num q =>
      if b = 0 then (if q = 0 then .nan else if 0 < q then .inf else .ninf)
      else .num (q / b)
  | .nan => .nan
  | .inf => if b < 0 then .ninf else .inf
  | .ninf => if b < 0 then .inf else .ninf

/-- JS multiplication `a * b` with `b` finite (`Infinity * 0` is `NaN`). -/

def jsMul (a : JSNum) (b : ℚ) : JSNum :=
  match a with
  | .num q => .num (q * b)
  | .nan => .nan
  | .inf => if b = 0 then .nan else if 0 < b then .inf else .ninf
  | .ninf => if b = 0 then .nan else if 0 < b then .ninf else .inf

def digitsToNat (cs : List Char) : ℕ :=
  cs.foldl (fun acc c => acc * 10 + (c.toNat - Char.toNat ZeroChar)) 0
where
  /-- The character `0`, named to keep the fold readable. -/
  ZeroChar : Char := '0'

/-- Scanner part of JS `parseFloat`: leading spaces, an optional sign,
decimal digits with an optional fractional part.  Returns
`(negative, integer digits, fraction digits, fraction length)`, or `none`
when no digits are consumed (JS `NaN`).  Exponents and the `"Infinity"`
literals accepted by JS never occur in the chart's label strings and are
not modelled. -/

def parseFloatCore (cs : List Char) : Option (Bool × ℕ × ℕ × ℕ) :=
  let cs1 := cs.dropWhile (fun c => c = ' ')
  let sign : Bool := match cs1 with | '-' :: _ => true | _ => false
  let cs2 := match cs1 with
    | '-' :: r => r
    | '+' :: r => r
    | _ => cs1
  let intDigits := cs2.takeWhile Char.isDigit
  let rest := cs2.dropWhile Char.isDigit
  let fracDigits := match rest with
    | '.' :: r => r.takeWhile Char.isDigit
    | _ => []
  if intDigits.isEmpty && fracDigits.isEmpty then none
  else some (sign, digitsToNat intDigits, digitsToNat fracDigits,
    fracDigits.length)

/-- JS `parseFloat` on the label strings. -/

def parseFloat (s : String) : JSNum :=
  match parseFloatCore s.toList with
  | none => JSNum.nan
  | some (sign, ip, fp, fl) =>
      JSNum.num ((if sign then -1 else 1) *
        ((ip : ℚ) + (fp : ℚ) / (10 : ℚ) ^ fl))

/-- JS `str.replace(",", "")` replaces only the first occurrence. -/

def removeFirstComma : List Char → List Char
  | [] => []
  | ',' :: rest => rest
  | c :: rest => c :: removeFirstComma rest

/-- `fRound` (`ui.ts` lines 51-54): strip the first comma, then parse. -/

def fRound (str : String) : JSNum :=
  parseFloat (String.mk (removeFirstComma str.toList))

/-- JS `Number.prototype.toFixed(2)`: `"NaN"` for `NaN`, `"Infinity"` for
infinities, otherwise two decimals (rounding to nearest, modelled with
halves away from the lower value). -/

def toFixed2 (a : JSNum) : String :=
  match a with
  | .nan => "NaN"
  | .inf => "Infinity"
  | .ninf => "-Infinity"
  | .num q =>
      let n : ℤ := round (q * 100)
      if n < 0 then "-" ++ fixedDigits n.natAbs else fixedDigits n.toNat
where
  fixedDigits (m : ℕ) : String :=
    toString (m / 100) ++ "." ++
      (if m % 100 < 10 then "0" else "") ++ toString (m % 100)

/-- The buy-side percentage label text (`ui.ts` lines 604-609):
`((fRound(label) - midPrice) / midPrice * 100).toFixed(2) + "%"`. -/

def buyVolRatioLabel (label : String) (midPrice : ℚ) : String :=
  toFixed2 (jsMul (jsDiv (jsSub (fRound label) midPrice) midPrice) 100) ++ "%"

/-- The sell-side percentage label text (`ui.ts` lines 666-673): same value
with an explicit `"+"` prefix. -/

def sellVolRatioLabel (label : String) (midPrice : ℚ) : String :=
  "+" ++
    toFixed2 (jsMul (jsDiv (jsSub (fRound label) midPrice) midPrice) 100) ++
    "%"


/-! ### Pinch zoom (`touchmove` handler, `ui.ts` lines 278-322) -/

/-- lodash `clamp(number, lower, upper)`. -/

def clamp {α : Type} [LinearOrder α] (x lo hi : α) : α := max lo (min x hi)

/-- One touch record of the gesture (`point` mutated on move,
`originalPoint` frozen at gesture start, `identifier` from the browser). -/

structure TouchPt where
  point : ℝ × ℝ
  originalPoint : ℝ × ℝ
  identifier : ℕ

/-- State during a pinch: both touch records, the transform snapshotted at
gesture start (`originalTransform`), and the current transform. -/

structure PinchState where
  touch0 : TouchPt
  touch1 : TouchPt
  originalTransform : ℝ
  transform : ℝ

/-- Position update for one changed touch, matched by identifier
(`ui.ts` lines 285-297). -/

def touchPointStep (st : PinchState) (c : ℕ × (ℝ × ℝ)) : PinchState :=
  if st.touch0.identifier = c.1 then
    { st with touch0 := { st.touch0 with point := c.2 } }
  else if st.touch1.identifier = c.1 then
    { st with touch1 := { st.touch1 with point := c.2 } }
  else st

/-- The `touchmove` handler with both touches present: update the changed
touches, then `k = sqrt(dp / dl)` from the squared current and original
inter-touch distances and
`transform = clamp(originalTransform * k, extent)` (`ui.ts` 299-320). -/

noncomputable def touchMove (lo hi : ℝ) (s : PinchState)
    (changed : List (ℕ × (ℝ × ℝ))) : PinchState :=
  let s1 := changed.foldl touchPointStep s
  let dp := (s1.touch1.point.1 - s1.touch0.point.1) ^ 2 +
    (s1.touch1.point.2 - s1.touch0.point.2) ^ 2
  let dl := (s1.touch1.originalPoint.1 - s1.touch0.originalPoint.1) ^ 2 +
    (s1.touch1.originalPoint.2 - s1.touch0.originalPoint.2) ^ 2
  { s1 with transform := clamp (s1.originalTransform * Real.sqrt (dp / dl)) lo hi }

/-- A whole sequence of `touchmove` events. -/

noncomputable def processTouchMoves (lo hi : ℝ) (s : PinchState)
    (events : List (List (ℕ × (ℝ × ℝ)))) : PinchState :=
  events.foldl (touchMove lo hi) s

/-- Euclidean pixel distance between two points. -/

noncomputable def pixelDist (p q : ℝ × ℝ) : ℝ :=
  Real.sqrt ((q.1 - p.1) ^ 2 + (q.2 - p.2) ^ 2)




/-! ### Wheel debounce (`wheel` handler, `ui.ts` lines 210-237)

The handler is driven by timestamped wheel ticks; the 150 ms debounce
timer is modelled as firing before any later event whose timestamp has
passed the armed deadline, and at the end of the run.  The per-tick zoom
factor `2^(-deltaY * 0.002 * (ctrl ? 10 : 1))` is irrational in general,
so each event carries its factor `k` as data. -/

inductive ZoomEvent where
  | zoomstart
  | zoom
  | zoomend
deriving DecidableEq, Repr

structure WheelState where
  wheelActive : Bool
  deadline : ℚ
  transform : ℚ
  out : List ZoomEvent
deriving DecidableEq, Repr

/-- One wheel tick at time `e.1` with zoom factor `e.2`: fire a due timer,
emit `zoomstart` when no timer was pending, update the transform, rearm the
timer 150 ms out, emit `zoom`. -/

def wheelStep (lo hi : ℚ) (s : WheelState) (e : ℚ × ℚ) : WheelState :=
  let s1 := if s.wheelActive ∧ s.deadline ≤ e.1 then
      { s with wheelActive := false, out := s.out ++ [ZoomEvent.zoomend] }
    else s
  let s2 := if s1.wheelActive then s1
    else { s1 with out := s1.out ++ [ZoomEvent.zoomstart] }
  { s2 with
    wheelActive := true
    deadline := e.1 + 150
    transform := clamp (s2.transform * e.2) lo hi
    out := s2.out ++ [ZoomEvent.zoom] }

/-- Let a still-armed timer fire after the last event. -/

def wheelFinish (s : WheelState) : WheelState :=
  if s.wheelActive then
    { s with wheelActive := false, out := s.out ++ [ZoomEvent.zoomend] }
  else s

def initialWheelState : WheelState := ⟨false, 0, 1, []⟩

/-- A run of wheel events from the idle state, the trailing timer included. -/

def runWheel (lo hi : ℚ) (events : List (ℚ × ℚ)) : WheelState :=
  wheelFinish (events.foldl (wheelStep lo hi) initialWheelState)




/-! ### Touch end (`touchend` handler, `ui.ts` lines 323-348) -/

/-- A touch record as kept by the gesture (pixel point and identifier). -/

structure TouchRec where
  point : ℚ × ℚ
  identifier : ℕ
deriving DecidableEq, Repr

/-- The two nullable gesture touch slots. -/

structure TouchSlots where
  touch0 : Option TouchRec
  touch1 : Option TouchRec
deriving DecidableEq, Repr

/-- JS truthy-and-match test `touchN && touchN.identifier === id`. -/

def touchMatches (o : Option TouchRec) (i : ℕ) : Bool :=
  match o with
  | some t => t.identifier == i
  | none => false

/-- Clearing loop body (`ui.ts` lines 327-339): if `touch0` matches the
ended identifier clear `touch0`, else if `touch1` matches clear `touch1`. -/

def touchEndStep (st : TouchSlots) (i : ℕ) : TouchSlots :=
  if touchMatches st.touch0 i then { st with touch0 := none }
  else if touchMatches st.touch1 i then { st with touch1 := none }
  else st

/-- The `touchend` handler: clear the matching slots, then — only when
`touch1` survives while `touch0` is gone — clear both (`ui.ts` lines
341-344); `gesture.end()` (a `zoomend`) is emitted unconditionally at line
346. -/

def touchEnd (st : TouchSlots) (changed : List ℕ) : TouchSlots × List ZoomEvent :=
  let s1 := changed.foldl touchEndStep st
  let s2 := if s1.touch1.isSome && !s1.touch0.isSome then
      ({ touch0 := none, touch1 := none } : TouchSlots)
    else s1
  (s2, [ZoomEvent.zoomend])

/-- What one pass of clearing does to a slot. -/

def optClear (o : Option TouchRec) (changed : List ℕ) : Option TouchRec :=
  match o with
  | some u => if u.identifier ∈ changed then none else some u
  | none => none




/-! ### Pointer-out / clearPrice (`ui.ts` lines 444-446 and 819-836) -/

/-- Visibility flags of every overlay element owned by the interaction
engine, plus the cached last pointer event (its x coordinate). -/

structure OverlayVis where
  buyPriceText : Bool
  buyVolumeText : Bool
  buyVolRatioText : Bool
  sellPriceText : Bool
  sellVolumeText : Bool
  sellVolRatioText : Bool
  buyIndicator : Bool
  sellIndicator : Bool
  buyOverlay : Bool
  sellOverlay : Bool
  auctionPriceText : Bool
  auctionVolumeText : Bool
  auctionIndicator : Bool
  lastEvent : Option ℚ
deriving DecidableEq, Repr

/-- `UI.onPointerOut` (`ui.ts` lines 819-836), which `clearPrice` calls
verbatim: hides the ten buy/sell overlay elements and clears `lastEvent`.
The three auction elements are not touched by the source. -/

def onPointerOut (s : OverlayVis) : OverlayVis :=
  { s with
    buyPriceText := false
    buyVolumeText := false
    buyVolRatioText := false
    sellPriceText := false
    sellVolumeText := false
    sellVolRatioText := false
    buyIndicator := false
    sellIndicator := false
    buyOverlay := false
    sellOverlay := false
    lastEvent := none }

/-- `UI.update` re-runs the pointer handler only when a cached last event
exists (`ui.ts` lines 431-433). -/

def updateRerunsPointer (s : OverlayVis) : Bool := s.lastEvent.isSome

/-- Every overlay element (auction ones included) hidden. -/

def allOverlaysHidden (s : OverlayVis) : Bool :=
  !s.buyPriceText && !s.buyVolumeText && !s.buyVolRatioText &&
  !s.sellPriceText && !s.sellVolumeText && !s.sellVolRatioText &&
  !s.buyIndicator && !s.sellIndicator && !s.buyOverlay && !s.sellOverlay &&
  !s.auctionPriceText && !s.auctionVolumeText && !s.auctionIndicator



/-! ### Auction-mode spatial index (`ui.ts` lines 492-505)

The cost of interest is how often `Delaunay.from(points)` is constructed;
`indexBuilds` counts the constructions.  `Delaunay.find` is the nearest
point by Euclidean distance, compared here through squared distances. -/

def sqDistQ (p : ℚ × ℚ) (x y : ℚ) : ℚ := (p.1 - x) ^ 2 + (p.2 - y) ^ 2

def nearestPointAux (x y : ℚ) : List (ℚ × ℚ) → ℕ → ℕ → ℚ → ℕ
  | [], _, best, _ => best
  | p :: rest, i, best, bestD =>
      if sqDistQ p x y < bestD then
        nearestPointAux x y rest (i + 1) i (sqDistQ p x y)
      else nearestPointAux x y rest (i + 1) best bestD

/-- `delaunay.find(x, y)`: index of the point nearest to `(x, y)`. -/

def nearestPointIdx (points : List (ℚ × ℚ)) (x y : ℚ) : ℕ :=
  match points with
  | [] => 0
  | p :: rest => nearestPointAux x y rest 1 0 (sqDistQ p x y)

/-- The auction-relevant slice of the `UI` state. -/

structure AuctionUIState where
  prices : List ℚ
  volumes : List ℚ
  indicativePrice : ℚ
  resolution : ℚ
  auctionVisible : Bool
  indexBuilds : ℕ
deriving DecidableEq, Repr

/-- `UI.update` (`ui.ts` lines 357-434) stores the new curve arrays; it
contains no spatial-index construction. -/

def auctionUpdate (s : AuctionUIState) (prices volumes : List ℚ) :
    AuctionUIState :=
  { s with prices := prices, volumes := volumes }

/-- The auction branch of `UI.onPointerMove` (`ui.ts` lines 448-565,
condition at 455 and 492): for a truthy pointer x with at least two prices
and a truthy indicative price, zip the points, construct the Delaunay
index (counted by `indexBuilds`, constructed anew on every call — the
source's own comment reads `TODO: Cache the result of this calculation`),
find the nearest point, and show the tooltip iff it is within
`50 * resolution` pixels. -/

def auctionPointerMove (s : AuctionUIState) (x y : ℚ) : AuctionUIState :=
  if x ≠ 0 ∧ 1 < s.prices.length then
    if s.indicativePrice ≠ 0 then
      let xs := x * s.resolution
      let ys := y * s.resolution
      let radius := 50 * s.resolution
      let points := s.prices.zip s.volumes
      let s1 := { s with indexBuilds := s.indexBuilds + 1 }
      let i := nearestPointIdx points xs ys
      if sqDistQ (points.getD i (0, 0)) xs ys < radius ^ 2 then
        { s1 with auctionVisible := true }
      else
        { s1 with auctionVisible := false }
    else s
  else s


/-- Elements strictly before `findIdx` fail the predicate (phrased via `getD`). -/
theorem findIdx_getD_false {α : Type} [Inhabited α] (p : α → Bool) (d : α) :
    ∀ (l : List α) {j : Nat}, j < l.findIdx p → p (l.getD j d) = false := by
  intro l
  induction l with
  | nil =>
      intro j h
      rw [List.findIdx_nil] at h
      exact absurd h (Nat.not_lt_zero j)
  | cons b t ih =>
      intro j h
      rw [List.findIdx_cons] at h
      cases hp : p b with
      | true => simp [hp] at h
      | false =>
          simp only [hp, cond_false] at h
          cases j with
          | zero => simpa using hp
          | succ k =>
              simp only [List.getD_cons_succ]
              exact ih (Nat.lt_of_succ_lt_succ h)

/-- When `findIdx` is in range, the element there satisfies the predicate. -/
theorem findIdx_getD_true {α : Type} [Inhabited α] (p : α → Bool) (d : α) :
    ∀ (l : List α), l.findIdx p < l.length → p (l.getD (l.findIdx p) d) = true := by
  intro l
  induction l with
  | nil => intro h; simp at h
  | cons b t ih =>
      intro h
      rw [List.findIdx_cons]
      rw [List.findIdx_cons] at h
      cases hp : p b with
      | true => simpa using hp
      | false =>
          simp only [hp, cond_false] at h ⊢
          simp only [List.getD_cons_succ]
          exact ih (Nat.lt_of_succ_lt_succ h)

theorem bisectLeft_le_length (a : List ℚ) (x : ℚ) : bisectLeft a x ≤ a.length :=
  List.findIdx_le_length _

theorem bisectRight_le_length (a : List ℚ) (x : ℚ) : bisectRight a x ≤ a.length :=
  List.findIdx_le_length _

theorem getD_lt_of_lt_bisectLeft {a : List ℚ} {x : ℚ} {j : Nat}
    (h : j < bisectLeft a x) : a.getD j 0 < x := by
  have := findIdx_getD_false (fun v => decide (x ≤ v)) 0 a h
  simpa using this

theorem le_getD_bisectLeft {a : List ℚ} {x : ℚ}
    (h : bisectLeft a x < a.length) : x ≤ a.getD (bisectLeft a x) 0 := by
  have := findIdx_getD_true (fun v => decide (x ≤ v)) 0 a h
  simpa using this

theorem getD_le_of_lt_bisectRight {a : List ℚ} {x : ℚ} {j : Nat}
    (h : j < bisectRight a x) : a.getD j 0 ≤ x := by
  have := findIdx_getD_false (fun v => decide (x < v)) 0 a h
  simpa using this

theorem bisectLeft_eq_zero_iff (b : ℚ) (t : List ℚ) (x : ℚ) :
    bisectLeft (b :: t) x = 0 ↔ x ≤ b := by
  rw [bisectLeft, List.findIdx_cons]
  cases h : decide (x ≤ b) with
  | true => simpa using of_decide_eq_true h
  | false =>
      simp only [cond_false]
      constructor
      · intro hc; exact absurd hc (Nat.succ_ne_zero _)
      · intro hc; exact absurd (decide_eq_true hc) (by simp [h])

theorem bisectRight_eq_zero_iff (b : ℚ) (t : List ℚ) (x : ℚ) :
    bisectRight (b :: t) x = 0 ↔ x < b := by
  rw [bisectRight, List.findIdx_cons]
  cases h : decide (x < b) with
  | true => simpa using of_decide_eq_true h
  | false =>
      simp only [cond_false]
      constructor
      · intro hc; exact absurd hc (Nat.succ_ne_zero _)
      · intro hc; exact absurd (decide_eq_true hc) (by simp [h])

/-- Strictly sorted lists are strictly monotone under `getD` (in range). -/
theorem sorted_getD_lt {a : List ℚ} (hs : a.Sorted (· < ·)) {j k : Nat}
    (hk : k < a.length) (hjk : j < k) : a.getD j 0 < a.getD k 0 := by
  have hj : j < a.length := Nat.lt_trans hjk hk
  rw [List.getD_eq_getElem a 0 hj, List.getD_eq_getElem a 0 hk]
  exact hs.rel_get_of_lt (show (⟨j, hj⟩ : Fin a.length) < ⟨k, hk⟩ from hjk)

theorem sorted_getD_le {a : List ℚ} (hs : a.Sorted (· < ·)) {j k : Nat}
    (hk : k < a.length) (hjk : j ≤ k) : a.getD j 0 ≤ a.getD k 0 := by
  rcases Nat.lt_or_ge j k with h | h
  · exact le_of_lt (sorted_getD_lt hs hk h)
  · have : j = k := Nat.le_antisymm hjk h
    rw [this]

theorem sorted_getD_inj {a : List ℚ} (hs : a.Sorted (· < ·)) {j k : Nat}
    (hj : j < a.length) (hk : k < a.length)
    (h : a.getD j 0 = a.getD k 0) : j = k := by
  rcases Nat.lt_trichotomy j k with hlt | heq | hgt
  · exact absurd h (ne_of_lt (sorted_getD_lt hs hk hlt))
  · exact heq
  · exact absurd h.symm (ne_of_lt (sorted_getD_lt hs hj hgt))

/-- C1: for a strictly ascending `prices` array, the nearest-index lookup
used by the pointer handler (`bisectCenter`, modelled from the spec) returns
an in-range index minimizing `|prices[i] - x|`, ties broken toward the lower
index, and for every `x` beyond the last price it returns the last index. -/
theorem bisectCenter_nearest (a : List ℚ) (x : ℚ)
    (hs : a.Sorted (· < ·)) (hne : a ≠ []) :
    bisectCenter a x < a.length ∧
    (∀ j : Nat, j < a.length →
      |a.getD (bisectCenter a x) 0 - x| ≤ |a.getD j 0 - x| ∧
      (|a.getD (bisectCenter a x) 0 - x| = |a.getD j 0 - x| →
        bisectCenter a x ≤ j)) ∧
    (a.getD (a.length - 1) 0 < x → bisectCenter a x = a.length - 1) := by
  have hn : 0 < a.length := List.length_pos.mpr hne
  have hceq : bisectCenter a x =
      (if bisectLeft a x = 0 then 0
       else if a.length ≤ bisectLeft a x then a.length - 1
       else if x - a.getD (bisectLeft a x - 1) 0 ≤
           a.getD (bisectLeft a x) 0 - x then bisectLeft a x - 1
         else bisectLeft a x) := rfl
  by_cases hi0 : bisectLeft a x = 0
  · -- x is at or before the first element
    have hc : bisectCenter a x = 0 := by rw [hceq, if_pos hi0]
    have hx0 : x ≤ a.getD 0 0 := by
      have := @le_getD_bisectLeft a x (by rw [hi0]; exact hn)
      rwa [hi0] at this
    refine ⟨by rw [hc]; exact hn, ?_, ?_⟩
    · intro j hj
      have h0j : a.getD 0 0 ≤ a.getD j 0 := sorted_getD_le hs hj (Nat.zero_le j)
      have habs0 : |a.getD 0 0 - x| = a.getD 0 0 - x :=
        abs_of_nonneg (by linarith)
      have habsj : |a.getD j 0 - x| = a.getD j 0 - x :=
        abs_of_nonneg (by linarith)
      rw [hc, habs0, habsj]
      exact ⟨by linarith, fun _ => Nat.zero_le j⟩
    · intro hlast
      have : a.getD 0 0 ≤ a.getD (a.length - 1) 0 :=
        sorted_getD_le hs (Nat.sub_lt hn Nat.one_pos) (Nat.zero_le _)
      linarith
  · by_cases hin : a.length ≤ bisectLeft a x
    · -- x is beyond every element
      have hc : bisectCenter a x = a.length - 1 := by
        rw [hceq, if_neg hi0, if_pos hin]
      have hall : ∀ j : Nat, j < a.length → a.getD j 0 < x := by
        intro j hj
        exact getD_lt_of_lt_bisectLeft (Nat.lt_of_lt_of_le hj hin)
      refine ⟨by rw [hc]; exact Nat.sub_lt hn Nat.one_pos, ?_, fun _ => hc⟩
      intro j hj
      have hjlast : a.getD j 0 ≤ a.getD (a.length - 1) 0 :=
        sorted_getD_le hs (Nat.sub_lt hn Nat.one_pos)
          (Nat.le_sub_one_of_lt hj)
      have habsl : |a.getD (a.length - 1) 0 - x| = x - a.getD (a.length - 1) 0 := by
        have := hall (a.length - 1) (Nat.sub_lt hn Nat.one_pos)
        rw [abs_sub_comm]; exact abs_of_nonneg (by linarith)
      have habsj : |a.getD j 0 - x| = x - a.getD j 0 := by
        have := hall j hj
        rw [abs_sub_comm]; exact abs_of_nonneg (by linarith)
      rw [hc, habsl, habsj]
      refine ⟨by linarith, fun heq => ?_⟩
      have : a.getD j 0 = a.getD (a.length - 1) 0 := by linarith
      have := sorted_getD_inj hs hj (Nat.sub_lt hn Nat.one_pos) this
      exact Nat.le_of_eq this.symm
    · -- 0 < bisectLeft a x < a.length
      push_neg at hin
      have hipos : 0 < bisectLeft a x := Nat.pos_of_ne_zero hi0
      have him1 : bisectLeft a x - 1 < a.length :=
        Nat.lt_of_le_of_lt (Nat.sub_le _ _) hin
      have hlow : a.getD (bisectLeft a x - 1) 0 < x :=
        getD_lt_of_lt_bisectLeft (Nat.sub_lt hipos Nat.one_pos)
      have hhigh : x ≤ a.getD (bisectLeft a x) 0 := le_getD_bisectLeft hin
      have hnotlast : ¬ a.getD (a.length - 1) 0 < x := by
        intro hlast
        have : a.getD (bisectLeft a x) 0 ≤ a.getD (a.length - 1) 0 :=
          sorted_getD_le hs (Nat.sub_lt hn Nat.one_pos)
            (Nat.le_sub_one_of_lt hin)
        linarith
      by_cases hchoice : x - a.getD (bisectLeft a x - 1) 0 ≤
          a.getD (bisectLeft a x) 0 - x
      · have hc : bisectCenter a x = bisectLeft a x - 1 := by
          rw [hceq, if_neg hi0, if_neg (not_le.mpr hin), if_pos hchoice]
        have habsc : |a.getD (bisectLeft a x - 1) 0 - x| =
            x - a.getD (bisectLeft a x - 1) 0 := by
          rw [abs_sub_comm]; exact abs_of_nonneg (by linarith)
        refine ⟨by rw [hc]; exact him1, ?_, fun hlast => absurd hlast hnotlast⟩
        intro j hj
        rcases Nat.lt_or_ge j (bisectLeft a x) with hjlt | hjge
        · -- j ≤ bisectLeft a x - 1
          have hjle : j ≤ bisectLeft a x - 1 := Nat.le_sub_one_of_lt hjlt
          have hjval : a.getD j 0 ≤ a.getD (bisectLeft a x - 1) 0 :=
            sorted_getD_le hs him1 hjle
          have hjlow : a.getD j 0 < x := getD_lt_of_lt_bisectLeft hjlt
          have habsj : |a.getD j 0 - x| = x - a.getD j 0 := by
            rw [abs_sub_comm]; exact abs_of_nonneg (by linarith)
          rw [hc, habsc, habsj]
          refine ⟨by linarith, fun heq => ?_⟩
          have : a.getD j 0 = a.getD (bisectLeft a x - 1) 0 := by linarith
          exact Nat.le_of_eq (sorted_getD_inj hs hj him1 this).symm
        · -- j ≥ bisectLeft a x
          have hjval : a.getD (bisectLeft a x) 0 ≤ a.getD j 0 :=
            sorted_getD_le hs hj hjge
          have habsj : |a.getD j 0 - x| = a.getD j 0 - x :=
            abs_of_nonneg (by linarith)
          rw [hc, habsc, habsj]
          refine ⟨by linarith, fun _ => ?_⟩
          exact Nat.le_trans (Nat.sub_le _ _) hjge
      · have hc : bisectCenter a x = bisectLeft a x := by
          rw [hceq, if_neg hi0, if_neg (not_le.mpr hin), if_neg hchoice]
        push_neg at hchoice
        have habsc : |a.getD (bisectLeft a x) 0 - x| =
            a.getD (bisectLeft a x) 0 - x := abs_of_nonneg (by linarith)
        refine ⟨by rw [hc]; exact hin, ?_, fun hlast => absurd hlast hnotlast⟩
        intro j hj
        rcases Nat.lt_or_ge j (bisectLeft a x) with hjlt | hjge
        · have hjle : j ≤ bisectLeft a x - 1 := Nat.le_sub_one_of_lt hjlt
          have hjval : a.getD j 0 ≤ a.getD (bisectLeft a x - 1) 0 :=
            sorted_getD_le hs him1 hjle
          have hjlow : a.getD j 0 < x := getD_lt_of_lt_bisectLeft hjlt
          have habsj : |a.getD j 0 - x| = x - a.getD j 0 := by
            rw [abs_sub_comm]; exact abs_of_nonneg (by linarith)
          rw [hc, habsc, habsj]
          constructor
          · linarith
          · intro heq
            exact absurd heq (by intro h; linarith)
        · have hjval : a.getD (bisectLeft a x) 0 ≤ a.getD j 0 :=
            sorted_getD_le hs hj hjge
          have habsj : |a.getD j 0 - x| = a.getD j 0 - x :=
            abs_of_nonneg (by linarith)
          rw [hc, habsc, habsj]
          exact ⟨by linarith, fun _ => hjge⟩

/-- Witness for `bisectCenter_nearest` at `prices = [10, 20, 30, 40]`,
`x = 25` (an exact tie between indices 1 and 2, resolved to 1). -/
theorem bisectCenter_nearest_witness :
    ([10, 20, 30, 40] : List ℚ).Sorted (· < ·) ∧
    ([10, 20, 30, 40] : List ℚ) ≠ [] ∧
    (bisectCenter [10, 20, 30, 40] 25 < ([10, 20, 30, 40] : List ℚ).length ∧
    (∀ j : Nat, j < ([10, 20, 30, 40] : List ℚ).length →
      |([10, 20, 30, 40] : List ℚ).getD (bisectCenter [10, 20, 30, 40] 25) 0 - 25| ≤
        |([10, 20, 30, 40] : List ℚ).getD j 0 - 25| ∧
      (|([10, 20, 30, 40] : List ℚ).getD (bisectCenter [10, 20, 30, 40] 25) 0 - 25| =
          |([10, 20, 30, 40] : List ℚ).getD j 0 - 25| →
        bisectCenter [10, 20, 30, 40] 25 ≤ j)) ∧
    (([10, 20, 30, 40] : List ℚ).getD (([10, 20, 30, 40] : List ℚ).length - 1) 0 < 25 →
      bisectCenter [10, 20, 30, 40] 25 = ([10, 20, 30, 40] : List ℚ).length - 1)) :=
  ⟨by decide, by decide, bisectCenter_nearest [10, 20, 30, 40] 25 (by decide) (by decide)⟩

theorem bisectLeft_eq_zero_iff_getD {prices : List ℚ} (q : ℚ)
    (hne : prices ≠ []) : bisectLeft prices q = 0 ↔ q ≤ prices.getD 0 0 := by
  cases prices with
  | nil => exact absurd rfl hne
  | cons b t => simpa using bisectLeft_eq_zero_iff b t q

theorem bisectRight_eq_zero_iff_getD {prices : List ℚ} (q : ℚ)
    (hne : prices ≠ []) : bisectRight prices q = 0 ↔ q < prices.getD 0 0 := by
  cases prices with
  | nil => exact absurd rfl hne
  | cons b t => simpa using bisectRight_eq_zero_iff b t q

theorem computeSides_of_gt {prices : List ℚ} {x width scaleMid : ℚ}
    (h : width / 2 < x) :
    (computeSides prices x width scaleMid).buyIndex =
      (if width / 2 ≤ prices.getD 0 0 then -1
        else (bisectLeft prices
          (2 * scaleMid - prices.getD (bisectCenter prices x) 0) : ℤ) - 1) ∧
    (computeSides prices x width scaleMid).sellIndex =
      (bisectCenter prices x : ℤ) ∧
    (computeSides prices x width scaleMid).buyNearestX =
      2 * scaleMid - prices.getD (bisectCenter prices x) 0 ∧
    (computeSides prices x width scaleMid).sellNearestX =
      prices.getD (bisectCenter prices x) 0 := by
  simp only [computeSides]
  rw [if_pos h]
  exact ⟨rfl, rfl, rfl, rfl⟩

theorem computeSides_of_le {prices : List ℚ} {x width scaleMid : ℚ}
    (h : x ≤ width / 2) :
    (computeSides prices x width scaleMid).buyIndex =
      (bisectCenter prices x : ℤ) ∧
    (computeSides prices x width scaleMid).sellIndex =
      (if prices.getD (prices.length - 1) 0 ≤ width / 2 then -1
        else (bisectRight prices
          (2 * scaleMid - prices.getD (bisectCenter prices x) 0) : ℤ) - 1) ∧
    (computeSides prices x width scaleMid).buyNearestX =
      prices.getD (bisectCenter prices x) 0 ∧
    (computeSides prices x width scaleMid).sellNearestX =
      2 * scaleMid - prices.getD (bisectCenter prices x) 0 := by
  simp only [computeSides]
  rw [if_neg (not_lt.mpr h)]
  exact ⟨rfl, rfl, rfl, rfl⟩

/-- C2 counterexample: with `prices = [10, 20, 60, 70]`, adjusted width 100,
`scale(midPrice) = 40` and pointer `x = 45`, the pointer is right of
`scale(midPrice)` yet the code does not make the sell index the direct
nearest-neighbour result — the side split compares `x` against `width / 2`,
not against `scale(midPrice)`. -/
theorem computeSides_not_split_at_scaled_mid :
    ¬ ((45 : ℚ) > 40 →
      (computeSides [10, 20, 60, 70] 45 100 40).sellIndex =
        (bisectCenter [10, 20, 60, 70] 45 : ℤ)) := by
  norm_num [computeSides, bisectCenter, bisectLeft, bisectRight,
    List.findIdx_cons]

/-- C2 amended: the side is determined by comparing the pointer x to half the
gutter-adjusted chart width (`width / 2`), not to `scale(midPrice)`; on the
sell side the buy index is derived by bisecting at the reflected position
`2*scale(midPrice) - nearestX`, and it is `-1` exactly when the first price
sits at or right of `width / 2` or the reflected position falls at or before
the first price (symmetrically for the sell side); an index of `-1` forces
that side's overlay group invisible. -/
theorem computeSides_characterization (prices : List ℚ) (x width scaleMid : ℚ)
    (invert : ℚ → ℚ) (d0 d1 : ℚ) (hne : prices ≠ []) :
    (width / 2 < x →
      (computeSides prices x width scaleMid).sellIndex =
          (bisectCenter prices x : ℤ) ∧
      (computeSides prices x width scaleMid).sellNearestX =
          prices.getD (bisectCenter prices x) 0 ∧
      (computeSides prices x width scaleMid).buyNearestX =
          2 * scaleMid - prices.getD (bisectCenter prices x) 0 ∧
      ((computeSides prices x width scaleMid).buyIndex = -1 ↔
        (width / 2 ≤ prices.getD 0 0 ∨
          2 * scaleMid - prices.getD (bisectCenter prices x) 0 ≤
            prices.getD 0 0))) ∧
    (x ≤ width / 2 →
      (computeSides prices x width scaleMid).buyIndex =
          (bisectCenter prices x : ℤ) ∧
      (computeSides prices x width scaleMid).buyNearestX =
          prices.getD (bisectCenter prices x) 0 ∧
      (computeSides prices x width scaleMid).sellNearestX =
          2 * scaleMid - prices.getD (bisectCenter prices x) 0 ∧
      ((computeSides prices x width scaleMid).sellIndex = -1 ↔
        (prices.getD (prices.length - 1) 0 ≤ width / 2 ∨
          2 * scaleMid - prices.getD (bisectCenter prices x) 0 <
            prices.getD 0 0))) ∧
    ((computeSides prices x width scaleMid).buyIndex = -1 →
      buyOverlayVisible (computeSides prices x width scaleMid) prices width
        invert d0 = false) ∧
    ((computeSides prices x width scaleMid).sellIndex = -1 →
      sellOverlayVisible (computeSides prices x width scaleMid) prices width
        invert d1 = false) := by
  refine ⟨?_, ?_, ?_, ?_⟩
  · intro h
    obtain ⟨e1, e2, e3, e4⟩ := @computeSides_of_gt prices x width scaleMid h
    refine ⟨e2, e4, e3, ?_⟩
    rw [e1]
    by_cases hb : width / 2 ≤ prices.getD 0 0
    · rw [if_pos hb]
      exact ⟨fun hz => Or.inl hb, fun hz => rfl⟩
    · rw [if_neg hb, or_iff_right hb]
      constructor
      · intro hz
        have h0 : bisectLeft prices
            (2 * scaleMid - prices.getD (bisectCenter prices x) 0) = 0 := by
          omega
        exact (bisectLeft_eq_zero_iff_getD _ hne).mp h0
      · intro hz
        have := (bisectLeft_eq_zero_iff_getD
          (2 * scaleMid - prices.getD (bisectCenter prices x) 0) hne).mpr hz
        omega
  · intro h
    obtain ⟨e1, e2, e3, e4⟩ := @computeSides_of_le prices x width scaleMid h
    refine ⟨e1, e3, e4, ?_⟩
    rw [e2]
    by_cases hb : prices.getD (prices.length - 1) 0 ≤ width / 2
    · rw [if_pos hb]
      exact ⟨fun hz => Or.inl hb, fun hz => rfl⟩
    · rw [if_neg hb, or_iff_right hb]
      constructor
      · intro hz
        have h0 : bisectRight prices
            (2 * scaleMid - prices.getD (bisectCenter prices x) 0) = 0 := by
          omega
        exact (bisectRight_eq_zero_iff_getD _ hne).mp h0
      · intro hz
        have := (bisectRight_eq_zero_iff_getD
          (2 * scaleMid - prices.getD (bisectCenter prices x) 0) hne).mpr hz
        omega
  · intro h
    simp [buyOverlayVisible, h]
  · intro h
    simp [sellOverlayVisible, h]

/-- Witness for `computeSides_characterization` at `prices = [10, 20, 60, 70]`,
`x = 45`, `width = 100`, `scaleMid = 40`, `invert = id`, domain `[0, 100]`. -/
theorem computeSides_characterization_witness :
    (([10, 20, 60, 70] : List ℚ) ≠ []) ∧
    (((100 : ℚ) / 2 < 45 →
      (computeSides [10, 20, 60, 70] 45 100 40).sellIndex =
          (bisectCenter [10, 20, 60, 70] 45 : ℤ) ∧
      (computeSides [10, 20, 60, 70] 45 100 40).sellNearestX =
          ([10, 20, 60, 70] : List ℚ).getD (bisectCenter [10, 20, 60, 70] 45) 0 ∧
      (computeSides [10, 20, 60, 70] 45 100 40).buyNearestX =
          2 * 40 - ([10, 20, 60, 70] : List ℚ).getD (bisectCenter [10, 20, 60, 70] 45) 0 ∧
      ((computeSides [10, 20, 60, 70] 45 100 40).buyIndex = -1 ↔
        ((100 : ℚ) / 2 ≤ ([10, 20, 60, 70] : List ℚ).getD 0 0 ∨
          2 * 40 - ([10, 20, 60, 70] : List ℚ).getD (bisectCenter [10, 20, 60, 70] 45) 0 ≤
            ([10, 20, 60, 70] : List ℚ).getD 0 0))) ∧
    ((45 : ℚ) ≤ 100 / 2 →
      (computeSides [10, 20, 60, 70] 45 100 40).buyIndex =
          (bisectCenter [10, 20, 60, 70] 45 : ℤ) ∧
      (computeSides [10, 20, 60, 70] 45 100 40).buyNearestX =
          ([10, 20, 60, 70] : List ℚ).getD (bisectCenter [10, 20, 60, 70] 45) 0 ∧
      (computeSides [10, 20, 60, 70] 45 100 40).sellNearestX =
          2 * 40 - ([10, 20, 60, 70] : List ℚ).getD (bisectCenter [10, 20, 60, 70] 45) 0 ∧
      ((computeSides [10, 20, 60, 70] 45 100 40).sellIndex = -1 ↔
        (([10, 20, 60, 70] : List ℚ).getD (([10, 20, 60, 70] : List ℚ).length - 1) 0 ≤ 100 / 2 ∨
          2 * 40 - ([10, 20, 60, 70] : List ℚ).getD (bisectCenter [10, 20, 60, 70] 45) 0 <
            ([10, 20, 60, 70] : List ℚ).getD 0 0))) ∧
    ((computeSides [10, 20, 60, 70] 45 100 40).buyIndex = -1 →
      buyOverlayVisible (computeSides [10, 20, 60, 70] 45 100 40)
        [10, 20, 60, 70] 100 id 0 = false) ∧
    ((computeSides [10, 20, 60, 70] 45 100 40).sellIndex = -1 →
      sellOverlayVisible (computeSides [10, 20, 60, 70] 45 100 40)
        [10, 20, 60, 70] 100 id 100 = false)) :=
  ⟨by decide, computeSides_characterization [10, 20, 60, 70] 45 100 40 id 0 100 (by decide)⟩

theorem mapHas_iff (m : List (String × Nat)) (k : String) :
    mapHas m k = true ↔ k ∈ mapKeys m := by
  simp only [mapHas, mapKeys, List.any_eq_true, List.mem_map, beq_iff_eq]

theorem mapHas_eq_false_iff (m : List (String × Nat)) (k : String) :
    mapHas m k = false ↔ k ∉ mapKeys m := by
  rw [← mapHas_iff]
  cases mapHas m k <;> simp

theorem mem_mapKeys_mapSet (m : List (String × Nat)) (k : String) (v : Nat)
    (s : String) : s ∈ mapKeys (mapSet m k v) ↔ (s ∈ mapKeys m ∨ s = k) := by
  unfold mapSet
  by_cases h : mapHas m k
  · rw [if_pos h]
    have hk : k ∈ mapKeys m := (mapHas_iff m k).mp h
    have hkeys : mapKeys (m.map fun p => if p.1 == k then (k, v) else p) =
        mapKeys m := by
      unfold mapKeys
      rw [List.map_map]
      apply List.map_congr_left
      intro p _
      by_cases hb : p.1 = k
      · simp [hb]
      · simp [hb]
    rw [hkeys]
    constructor
    · exact Or.inl
    · rintro (hs | rfl)
      · exact hs
      · exact hk
  · rw [if_neg h]
    unfold mapKeys
    simp

theorem nodup_mapKeys_mapSet (m : List (String × Nat)) (k : String) (v : Nat)
    (h : (mapKeys m).Nodup) : (mapKeys (mapSet m k v)).Nodup := by
  unfold mapSet
  by_cases hh : mapHas m k
  · rw [if_pos hh]
    have hkeys : mapKeys (m.map fun p => if p.1 == k then (k, v) else p) =
        mapKeys m := by
      unfold mapKeys
      rw [List.map_map]
      apply List.map_congr_left
      intro p _
      by_cases hb : p.1 = k
      · simp [hb]
      · simp [hb]
    rwa [hkeys]
  · rw [if_neg hh]
    have hk : k ∉ mapKeys m := (mapHas_eq_false_iff m k).mp
      (Bool.eq_false_iff.mpr hh)
    unfold mapKeys
    rw [List.map_append]
    rw [List.nodup_append]
    refine ⟨h, List.nodup_singleton k, ?_⟩
    intro a ha hb
    rw [List.map_singleton, List.mem_singleton] at hb
    subst hb
    exact hk ha

theorem mapKeys_mapDelete (m : List (String × Nat)) (k : String) :
    mapKeys (mapDelete m k) = (mapKeys m).filter (fun s => !(s == k)) := by
  unfold mapKeys mapDelete
  induction m with
  | nil => rfl
  | cons p m ih =>
      rw [List.filter_cons, List.map_cons, List.filter_cons]
      by_cases hb : p.1 = k
      · simp only [hb, beq_self_eq_true, Bool.not_true, if_neg]
        simpa using ih
      · have : (p.1 == k) = false := beq_eq_false_iff_ne.mpr hb
        simp only [this, Bool.not_false, if_pos, List.map_cons]
        rw [ih]

theorem enterFold_keys_mem (fmt : ℚ → String) (pos : ℚ → ℚ) :
    ∀ (E : List ℚ) (st : AxisState) (k : String),
      k ∈ mapKeys ((E.foldl (axisEnterStep fmt pos) st).nodeByKeyValue) ↔
        (k ∈ mapKeys st.nodeByKeyValue ∨ k ∈ E.map fmt) := by
  intro E
  induction E with
  | nil => intro st k; simp
  | cons t E ih =>
      intro st k
      rw [List.foldl_cons, ih]
      have : (axisEnterStep fmt pos st t).nodeByKeyValue =
          mapSet st.nodeByKeyValue (fmt t) st.counter := rfl
      rw [this, mem_mapKeys_mapSet]
      simp only [List.map_cons, List.mem_cons]
      tauto

theorem enterFold_keys_nodup (fmt : ℚ → String) (pos : ℚ → ℚ) :
    ∀ (E : List ℚ) (st : AxisState),
      (mapKeys st.nodeByKeyValue).Nodup →
      (mapKeys ((E.foldl (axisEnterStep fmt pos) st).nodeByKeyValue)).Nodup := by
  intro E
  induction E with
  | nil => intro st h; exact h
  | cons t E ih =>
      intro st h
      rw [List.foldl_cons]
      exact ih _ (nodup_mapKeys_mapSet _ _ _ h)

theorem updStep_preserves (fmt : ℚ → String) (pos : ℚ → ℚ) (st : AxisState)
    (t : ℚ) :
    (axisUpdateStep fmt pos st t).nodeByKeyValue = st.nodeByKeyValue ∧
    (axisUpdateStep fmt pos st t).tmByKeyValue = st.tmByKeyValue ∧
    (axisUpdateStep fmt pos st t).children = st.children ∧
    (axisUpdateStep fmt pos st t).counter = st.counter := by
  cases h1 : mapGet st.nodeByKeyValue (fmt t) <;>
    cases h2 : mapGet st.tmByKeyValue (fmt t ++ "|") <;>
    simp [axisUpdateStep, h1, h2]

theorem updFold_preserves (fmt : ℚ → String) (pos : ℚ → ℚ) :
    ∀ (U : List ℚ) (st : AxisState),
      (U.foldl (axisUpdateStep fmt pos) st).nodeByKeyValue = st.nodeByKeyValue ∧
      (U.foldl (axisUpdateStep fmt pos) st).tmByKeyValue = st.tmByKeyValue ∧
      (U.foldl (axisUpdateStep fmt pos) st).children = st.children ∧
      (U.foldl (axisUpdateStep fmt pos) st).counter = st.counter := by
  intro U
  induction U with
  | nil => intro st; exact ⟨rfl, rfl, rfl, rfl⟩
  | cons t U ih =>
      intro st
      rw [List.foldl_cons]
      obtain ⟨e1, e2, e3, e4⟩ := ih (axisUpdateStep fmt pos st t)
      obtain ⟨f1, f2, f3, f4⟩ := updStep_preserves fmt pos st t
      exact ⟨e1.trans f1, e2.trans f2, e3.trans f3, e4.trans f4⟩

theorem exitFold_keys_mem :
    ∀ (K : List String) (st : AxisState) (k : String),
      k ∈ mapKeys ((K.foldl axisExitStep st).nodeByKeyValue) ↔
        (k ∈ mapKeys st.nodeByKeyValue ∧ k ∉ K) := by
  intro K
  induction K with
  | nil => intro st k; simp
  | cons k0 K ih =>
      intro st k
      rw [List.foldl_cons, ih]
      have : (axisExitStep st k0).nodeByKeyValue =
          mapDelete st.nodeByKeyValue k0 := rfl
      rw [this, mapKeys_mapDelete]
      simp only [List.mem_filter, List.mem_cons, Bool.not_eq_true',
        beq_eq_false_iff_ne, ne_eq]
      tauto

theorem exitFold_keys_nodup :
    ∀ (K : List String) (st : AxisState),
      (mapKeys st.nodeByKeyValue).Nodup →
      (mapKeys ((K.foldl axisExitStep st).nodeByKeyValue)).Nodup := by
  intro K
  induction K with
  | nil => intro st h; exact h
  | cons k0 K ih =>
      intro st h
      rw [List.foldl_cons]
      apply ih
      have : (axisExitStep st k0).nodeByKeyValue =
          mapDelete st.nodeByKeyValue k0 := rfl
      rw [this, mapKeys_mapDelete]
      exact h.filter _

theorem mem_enterList_iff (s : AxisState) (ticks : List ℚ) (fmt : ℚ → String)
    (k : String) :
    k ∈ (ticks.filter (fun t => !(mapHas s.nodeByKeyValue (fmt t)))).map fmt ↔
      (k ∈ ticks.map fmt ∧ mapHas s.nodeByKeyValue k = false) := by
  simp only [List.mem_map, List.mem_filter, Bool.not_eq_true']
  constructor
  · rintro ⟨t, ⟨ht, hh⟩, rfl⟩
    exact ⟨⟨t, ht, rfl⟩, hh⟩
  · rintro ⟨⟨t, ht, rfl⟩, hh⟩
    exact ⟨t, ⟨ht, hh⟩, rfl⟩

theorem mem_exitList_iff (s : AxisState) (ticks : List ℚ) (fmt : ℚ → String)
    (k : String) :
    k ∈ (mapKeys s.nodeByKeyValue).filter
        (fun k => !((ticks.map fmt).contains k)) ↔
      (k ∈ mapKeys s.nodeByKeyValue ∧ k ∉ ticks.map fmt) := by
  simp [List.mem_filter, List.contains]

/-- After any reconciliation pass the label-cache key set is exactly the
formatted tick set (as a membership predicate). -/
theorem axisUpdate_keys_mem (s : AxisState) (ticks : List ℚ)
    (fmt : ℚ → String) (pos : ℚ → ℚ) (k : String) :
    k ∈ mapKeys ((axisUpdate s ticks fmt pos).nodeByKeyValue) ↔
      k ∈ ticks.map fmt := by
  simp only [axisUpdate]
  rw [exitFold_keys_mem, (updFold_preserves fmt pos _ _).1,
    enterFold_keys_mem, mem_enterList_iff]
  by_cases hk : k ∈ mapKeys s.nodeByKeyValue
  · have hhas : mapHas s.nodeByKeyValue k = true := (mapHas_iff _ _).mpr hk
    constructor
    · rintro ⟨hmem, hnotexit⟩
      by_contra hlab
      exact hnotexit ((mem_exitList_iff s ticks fmt k).mpr ⟨hk, hlab⟩)
    · intro hlab
      refine ⟨Or.inl hk, fun hexit => ?_⟩
      exact ((mem_exitList_iff s ticks fmt k).mp hexit).2 hlab
  · have hhas : mapHas s.nodeByKeyValue k = false :=
      (mapHas_eq_false_iff _ _).mpr hk
    constructor
    · rintro ⟨hmem, hnotexit⟩
      rcases hmem with hmem | hmem
      · exact absurd hmem hk
      · exact hmem.1
    · intro hlab
      refine ⟨Or.inr ⟨hlab, hhas⟩, fun hexit => ?_⟩
      exact hk ((mem_exitList_iff s ticks fmt k).mp hexit).1

theorem axisUpdate_keys_nodup (s : AxisState) (ticks : List ℚ)
    (fmt : ℚ → String) (pos : ℚ → ℚ)
    (hwf : (mapKeys s.nodeByKeyValue).Nodup) :
    (mapKeys ((axisUpdate s ticks fmt pos).nodeByKeyValue)).Nodup := by
  simp only [axisUpdate]
  apply exitFold_keys_nodup
  rw [(updFold_preserves fmt pos _ _).1]
  exact enterFold_keys_nodup fmt pos _ _ hwf

/-- After any reconciliation pass the label cache holds exactly one node per
distinct formatted tick label. -/
theorem axisUpdate_node_length (s : AxisState) (ticks : List ℚ)
    (fmt : ℚ → String) (pos : ℚ → ℚ)
    (hwf : (mapKeys s.nodeByKeyValue).Nodup)
    (hlab : (ticks.map fmt).Nodup) :
    (axisUpdate s ticks fmt pos).nodeByKeyValue.length = ticks.length := by
  have h1 := axisUpdate_keys_nodup s ticks fmt pos hwf
  have hperm : List.Perm
      (mapKeys ((axisUpdate s ticks fmt pos).nodeByKeyValue))
      (ticks.map fmt) := by
    apply List.perm_of_nodup_nodup_toFinset_eq h1 hlab
    apply Finset.ext
    intro a
    simp only [List.mem_toFinset]
    exact axisUpdate_keys_mem s ticks fmt pos a
  have hlen := hperm.length_eq
  simp only [mapKeys, List.length_map] at hlen
  exact hlen

theorem axisUpdate_stable_core (s : AxisState) (ticks : List ℚ)
    (fmt : ℚ → String) (pos pos2 : ℚ → ℚ) :
    (axisUpdate (axisUpdate s ticks fmt pos) ticks fmt pos2).nodeByKeyValue =
      (axisUpdate s ticks fmt pos).nodeByKeyValue ∧
    (axisUpdate (axisUpdate s ticks fmt pos) ticks fmt pos2).tmByKeyValue =
      (axisUpdate s ticks fmt pos).tmByKeyValue ∧
    (axisUpdate (axisUpdate s ticks fmt pos) ticks fmt pos2).children =
      (axisUpdate s ticks fmt pos).children ∧
    (axisUpdate (axisUpdate s ticks fmt pos) ticks fmt pos2).counter =
      (axisUpdate s ticks fmt pos).counter := by
  have hmem := axisUpdate_keys_mem s ticks fmt pos
  have henter : ticks.filter
      (fun t => !(mapHas (axisUpdate s ticks fmt pos).nodeByKeyValue (fmt t))) =
      [] := by
    rw [List.filter_eq_nil_iff]
    intro t ht
    have : fmt t ∈ ticks.map fmt := List.mem_map_of_mem fmt ht
    have := (hmem (fmt t)).mpr this
    rw [(mapHas_iff _ _).mpr this]
    simp
  have hupd : ticks.filter
      (fun t => mapHas (axisUpdate s ticks fmt pos).nodeByKeyValue (fmt t)) =
      ticks := by
    rw [List.filter_eq_self]
    intro t ht
    have : fmt t ∈ ticks.map fmt := List.mem_map_of_mem fmt ht
    exact (mapHas_iff _ _).mpr ((hmem (fmt t)).mpr this)
  have hexit : (mapKeys (axisUpdate s ticks fmt pos).nodeByKeyValue).filter
      (fun k => !((ticks.map fmt).contains k)) = [] := by
    rw [List.filter_eq_nil_iff]
    intro k hk
    have : k ∈ ticks.map fmt := (hmem k).mp hk
    simp [List.contains, this]
  have hunfold : axisUpdate (axisUpdate s ticks fmt pos) ticks fmt pos2 =
      ((mapKeys (axisUpdate s ticks fmt pos).nodeByKeyValue).filter
        (fun k => !((ticks.map fmt).contains k))).foldl axisExitStep
        ((ticks.filter (fun t =>
            mapHas (axisUpdate s ticks fmt pos).nodeByKeyValue (fmt t))).foldl
          (axisUpdateStep fmt pos2)
          ((ticks.filter (fun t =>
              !(mapHas (axisUpdate s ticks fmt pos).nodeByKeyValue (fmt t)))).foldl
            (axisEnterStep fmt pos2) (axisUpdate s ticks fmt pos))) := rfl
  rw [hunfold, henter, hupd, hexit]
  rw [List.foldl_nil, List.foldl_nil]
  exact ⟨(updFold_preserves fmt pos2 ticks _).1,
    (updFold_preserves fmt pos2 ticks _).2.1,
    (updFold_preserves fmt pos2 ticks _).2.2.1,
    (updFold_preserves fmt pos2 ticks _).2.2.2⟩

/-- C4: with distinct formatted labels, a second reconciliation pass over an
unchanged tick set leaves both caches, the display-tree children and the
allocation counter untouched (every node keeps its identity, nothing is
removed and recreated), and after any pass the number of cached label nodes
equals the tick count. -/
theorem axisUpdate_identity_and_count (s : AxisState) (ticks : List ℚ)
    (fmt : ℚ → String) (pos pos2 : ℚ → ℚ)
    (hwf : (mapKeys s.nodeByKeyValue).Nodup)
    (hlab : (ticks.map fmt).Nodup) :
    ((axisUpdate (axisUpdate s ticks fmt pos) ticks fmt pos2).nodeByKeyValue =
      (axisUpdate s ticks fmt pos).nodeByKeyValue ∧
    (axisUpdate (axisUpdate s ticks fmt pos) ticks fmt pos2).tmByKeyValue =
      (axisUpdate s ticks fmt pos).tmByKeyValue ∧
    (axisUpdate (axisUpdate s ticks fmt pos) ticks fmt pos2).children =
      (axisUpdate s ticks fmt pos).children ∧
    (axisUpdate (axisUpdate s ticks fmt pos) ticks fmt pos2).counter =
      (axisUpdate s ticks fmt pos).counter) ∧
    (axisUpdate s ticks fmt pos).nodeByKeyValue.length = ticks.length :=
  ⟨axisUpdate_stable_core s ticks fmt pos pos2,
    axisUpdate_node_length s ticks fmt pos hwf hlab⟩

/-- Witness for `axisUpdate_identity_and_count`: two passes over the tick
set `[0, 200]` starting from the empty axis. -/
theorem axisUpdate_identity_and_count_witness :
    ((mapKeys emptyAxisState.nodeByKeyValue).Nodup ∧
      (([0, 200] : List ℚ).map
        (fun q : ℚ => if q ≤ 0 then "A" else "B")).Nodup) ∧
    (((axisUpdate (axisUpdate emptyAxisState [0, 200]
        (fun q : ℚ => if q ≤ 0 then "A" else "B") id) [0, 200]
        (fun q : ℚ => if q ≤ 0 then "A" else "B") id).nodeByKeyValue =
      (axisUpdate emptyAxisState [0, 200]
        (fun q : ℚ => if q ≤ 0 then "A" else "B") id).nodeByKeyValue ∧
    (axisUpdate (axisUpdate emptyAxisState [0, 200]
        (fun q : ℚ => if q ≤ 0 then "A" else "B") id) [0, 200]
        (fun q : ℚ => if q ≤ 0 then "A" else "B") id).tmByKeyValue =
      (axisUpdate emptyAxisState [0, 200]
        (fun q : ℚ => if q ≤ 0 then "A" else "B") id).tmByKeyValue ∧
    (axisUpdate (axisUpdate emptyAxisState [0, 200]
        (fun q : ℚ => if q ≤ 0 then "A" else "B") id) [0, 200]
        (fun q : ℚ => if q ≤ 0 then "A" else "B") id).children =
      (axisUpdate emptyAxisState [0, 200]
        (fun q : ℚ => if q ≤ 0 then "A" else "B") id).children ∧
    (axisUpdate (axisUpdate emptyAxisState [0, 200]
        (fun q : ℚ => if q ≤ 0 then "A" else "B") id) [0, 200]
        (fun q : ℚ => if q ≤ 0 then "A" else "B") id).counter =
      (axisUpdate emptyAxisState [0, 200]
        (fun q : ℚ => if q ≤ 0 then "A" else "B") id).counter) ∧
    (axisUpdate emptyAxisState [0, 200]
        (fun q : ℚ => if q ≤ 0 then "A" else "B") id).nodeByKeyValue.length =
      ([0, 200] : List ℚ).length) :=
  ⟨⟨by decide, by decide⟩,
    axisUpdate_identity_and_count emptyAxisState [0, 200]
      (fun q : ℚ => if q ≤ 0 then "A" else "B") id id (by decide) (by decide)⟩

/-- C3 (failing evaluation): reconciling `[0]` (label `"A"`) and then `[1]`
(label `"B"`) leaves the stale key `"A|"` in the tick-mark cache, because
the exit phase deletes key `"A"` from `tmByKeyValue` while the entry was
stored under `"A|"` — the label cache ends up as `["B"]` but the tick-mark
cache as `["A|", "B|"]`, an orphaned entry. -/
theorem axisUpdate_tickMark_cache_orphan :
    (axisUpdate (axisUpdate emptyAxisState [0]
        (fun q : ℚ => if q ≤ 0 then "A" else "B") id) [1]
        (fun q : ℚ => if q ≤ 0 then "A" else "B") id).nodeByKeyValue =
      [("B", 2)] ∧
    (axisUpdate (axisUpdate emptyAxisState [0]
        (fun q : ℚ => if q ≤ 0 then "A" else "B") id) [1]
        (fun q : ℚ => if q ≤ 0 then "A" else "B") id).tmByKeyValue =
      [("A|", 1), ("B|", 3)] ∧
    mapHas (axisUpdate (axisUpdate emptyAxisState [0]
        (fun q : ℚ => if q ≤ 0 then "A" else "B") id) [1]
        (fun q : ℚ => if q ≤ 0 then "A" else "B") id).tmByKeyValue "A|" =
      true := by
  decide

/-- C5 (failing evaluation): a label that fails to parse does not fail
closed — the handler renders the literal text `"NaN%"` (and `"+NaN%"` on
the sell side) into the ratio labels, while a well-formed label such as
`"105"` at mid-price 100 renders `"5.00%"`. -/
theorem ratioLabel_propagates_nan :
    fRound "abc" = JSNum.nan ∧
    buyVolRatioLabel "abc" 100 = "NaN%" ∧
    sellVolRatioLabel "abc" 100 = "+NaN%" ∧
    buyVolRatioLabel "105" 100 = "5.00%" := by
  have habc : fRound "abc" = JSNum.nan := by decide
  have h105core :
      parseFloatCore (String.mk (removeFirstComma "105".toList)).toList =
        some (false, 105, 0, 0) := by decide
  have h105 : fRound "105" = JSNum.num 105 := by
    rw [fRound, parseFloat, h105core]
    norm_num
  have hq : jsMul (jsDiv (jsSub (fRound "105") 100) 100) 100 =
      JSNum.num 5 := by
    rw [h105]
    simp only [jsSub, jsDiv, jsMul]
    norm_num
  have hfix : toFixed2 (JSNum.num 5) = "5.00" := by
    have hround : round ((5 : ℚ) * 100) = 500 := by
      norm_num [round_eq]
    simp only [toFixed2, hround]
    decide
  refine ⟨habc, ?_, ?_, ?_⟩
  · rw [buyVolRatioLabel, habc]
    decide
  · rw [sellVolRatioLabel, habc]
    decide
  · rw [buyVolRatioLabel, hq, hfix]
    decide

theorem touchPointStep_preserves (st : PinchState) (c : ℕ × (ℝ × ℝ)) :
    (touchPointStep st c).touch0.originalPoint = st.touch0.originalPoint ∧
    (touchPointStep st c).touch1.originalPoint = st.touch1.originalPoint ∧
    (touchPointStep st c).originalTransform = st.originalTransform := by
  rw [touchPointStep]
  split_ifs <;> exact ⟨rfl, rfl, rfl⟩

theorem touchPointFold_preserves :
    ∀ (changed : List (ℕ × (ℝ × ℝ))) (st : PinchState),
      (changed.foldl touchPointStep st).touch0.originalPoint =
        st.touch0.originalPoint ∧
      (changed.foldl touchPointStep st).touch1.originalPoint =
        st.touch1.originalPoint ∧
      (changed.foldl touchPointStep st).originalTransform =
        st.originalTransform := by
  intro changed
  induction changed with
  | nil => intro st; exact ⟨rfl, rfl, rfl⟩
  | cons c changed ih =>
      intro st
      rw [List.foldl_cons]
      obtain ⟨e1, e2, e3⟩ := ih (touchPointStep st c)
      obtain ⟨f1, f2, f3⟩ := touchPointStep_preserves st c
      exact ⟨e1.trans f1, e2.trans f2, e3.trans f3⟩

theorem touchMove_preserves (lo hi : ℝ) (s : PinchState)
    (changed : List (ℕ × (ℝ × ℝ))) :
    (touchMove lo hi s changed).touch0.originalPoint =
      s.touch0.originalPoint ∧
    (touchMove lo hi s changed).touch1.originalPoint =
      s.touch1.originalPoint ∧
    (touchMove lo hi s changed).originalTransform = s.originalTransform := by
  obtain ⟨e1, e2, e3⟩ := touchPointFold_preserves changed s
  exact ⟨e1, e2, e3⟩

theorem processTouchMoves_preserves (lo hi : ℝ) :
    ∀ (events : List (List (ℕ × (ℝ × ℝ)))) (s : PinchState),
      (processTouchMoves lo hi s events).touch0.originalPoint =
        s.touch0.originalPoint ∧
      (processTouchMoves lo hi s events).touch1.originalPoint =
        s.touch1.originalPoint ∧
      (processTouchMoves lo hi s events).originalTransform =
        s.originalTransform := by
  intro events
  induction events with
  | nil => intro s; exact ⟨rfl, rfl, rfl⟩
  | cons e events ih =>
      intro s
      rw [processTouchMoves, List.foldl_cons]
      obtain ⟨e1, e2, e3⟩ := ih (touchMove lo hi s e)
      obtain ⟨f1, f2, f3⟩ := touchMove_preserves lo hi s e
      rw [processTouchMoves] at e1 e2 e3
      exact ⟨e1.trans f1, e2.trans f2, e3.trans f3⟩

/-- The transform written by one `touchmove`: the square root of the
squared-distance ratio equals the plain distance ratio. -/
theorem touchMove_transform (lo hi : ℝ) (s : PinchState)
    (changed : List (ℕ × (ℝ × ℝ))) :
    (touchMove lo hi s changed).transform =
      clamp (s.originalTransform *
        (pixelDist (touchMove lo hi s changed).touch0.point
            (touchMove lo hi s changed).touch1.point /
          pixelDist s.touch0.originalPoint s.touch1.originalPoint)) lo hi := by
  obtain ⟨e1, e2, e3⟩ := touchPointFold_preserves changed s
  have hdp : (0 : ℝ) ≤
      ((changed.foldl touchPointStep s).touch1.point.1 -
        (changed.foldl touchPointStep s).touch0.point.1) ^ 2 +
      ((changed.foldl touchPointStep s).touch1.point.2 -
        (changed.foldl touchPointStep s).touch0.point.2) ^ 2 := by
    positivity
  show clamp ((changed.foldl touchPointStep s).originalTransform *
      Real.sqrt (_ / _)) lo hi = _
  rw [e3, Real.sqrt_div hdp]
  have hpt0 : (touchMove lo hi s changed).touch0.point =
      (changed.foldl touchPointStep s).touch0.point := rfl
  have hpt1 : (touchMove lo hi s changed).touch1.point =
      (changed.foldl touchPointStep s).touch1.point := rfl
  rw [hpt0, hpt1, pixelDist, pixelDist, e1, e2]

/-- C6: after any nonempty run of `touchmove` events in a pinch with the
original touches at nonzero distance `D0`, the resulting transform equals
`clamp(originalTransform * D1 / D0, extent[0], extent[1])`, where `D1` is
the distance of the two current touch positions. -/
theorem pinch_transform (lo hi : ℝ) (s : PinchState)
    (events : List (List (ℕ × (ℝ × ℝ)))) (hne : events ≠ [])
    (h0 : pixelDist s.touch0.originalPoint s.touch1.originalPoint ≠ 0) :
    (processTouchMoves lo hi s events).transform =
      clamp (s.originalTransform *
        (pixelDist (processTouchMoves lo hi s events).touch0.point
            (processTouchMoves lo hi s events).touch1.point /
          pixelDist s.touch0.originalPoint s.touch1.originalPoint)) lo hi := by
  induction events using List.reverseRecOn with
  | nil => exact absurd rfl hne
  | append_singleton evs last ih =>
      have hsplit : processTouchMoves lo hi s (evs ++ [last]) =
          touchMove lo hi (processTouchMoves lo hi s evs) last := by
        rw [processTouchMoves, List.foldl_append, List.foldl_cons,
          List.foldl_nil, processTouchMoves]
      obtain ⟨p1, p2, p3⟩ := processTouchMoves_preserves lo hi evs s
      rw [hsplit]
      rw [touchMove_transform lo hi (processTouchMoves lo hi s evs) last]
      rw [p1, p2, p3]

/-- Witness for `pinch_transform`: touches starting 3 px apart moved to
6 px apart, original transform 1, extent `[0, 10]`. -/
theorem pinch_transform_witness :
    ([[(1, ((6 : ℝ), (0 : ℝ)))]] :
        List (List (ℕ × (ℝ × ℝ)))) ≠ [] ∧
    pixelDist ((0 : ℝ), (0 : ℝ)) ((3 : ℝ), (0 : ℝ)) ≠ 0 ∧
    (processTouchMoves 0 10
        ⟨⟨(0, 0), (0, 0), 0⟩, ⟨(3, 0), (3, 0), 1⟩, 1, 1⟩
        [[(1, ((6 : ℝ), (0 : ℝ)))]]).transform =
      clamp ((1 : ℝ) *
        (pixelDist (processTouchMoves 0 10
            ⟨⟨(0, 0), (0, 0), 0⟩, ⟨(3, 0), (3, 0), 1⟩, 1, 1⟩
            [[(1, ((6 : ℝ), (0 : ℝ)))]]).touch0.point
          (processTouchMoves 0 10
            ⟨⟨(0, 0), (0, 0), 0⟩, ⟨(3, 0), (3, 0), 1⟩, 1, 1⟩
            [[(1, ((6 : ℝ), (0 : ℝ)))]]).touch1.point /
         pixelDist ((0 : ℝ), (0 : ℝ)) ((3 : ℝ), (0 : ℝ)))) 0 10 :=
  ⟨by simp,
    by
      rw [pixelDist]
      rw [show (((3 : ℝ), (0 : ℝ)).1 - ((0 : ℝ), (0 : ℝ)).1) ^ 2 +
          (((3 : ℝ), (0 : ℝ)).2 - ((0 : ℝ), (0 : ℝ)).2) ^ 2 = 3 ^ 2 by
        norm_num]
      rw [Real.sqrt_sq (by norm_num : (0 : ℝ) ≤ 3)]
      norm_num,
    pinch_transform 0 10 ⟨⟨(0, 0), (0, 0), 0⟩, ⟨(3, 0), (3, 0), 1⟩, 1, 1⟩
      [[(1, ((6 : ℝ), (0 : ℝ)))]] (by simp)
      (by
        rw [pixelDist]
        rw [show (((3 : ℝ), (0 : ℝ)).1 - ((0 : ℝ), (0 : ℝ)).1) ^ 2 +
            (((3 : ℝ), (0 : ℝ)).2 - ((0 : ℝ), (0 : ℝ)).2) ^ 2 = 3 ^ 2 by
          norm_num]
        rw [Real.sqrt_sq (by norm_num : (0 : ℝ) ≤ 3)]
        norm_num)⟩

theorem wheelStep_no_fire (lo hi : ℚ) (s : WheelState) (e : ℚ × ℚ)
    (hact : s.wheelActive = true) (hlt : e.1 < s.deadline) :
    (wheelStep lo hi s e).wheelActive = true ∧
    (wheelStep lo hi s e).deadline = e.1 + 150 ∧
    (wheelStep lo hi s e).out = s.out ++ [ZoomEvent.zoom] := by
  have hnle : ¬ s.deadline ≤ e.1 := not_le.mpr hlt
  simp [wheelStep, hact, hnle]

/-- Along a chain of wheel ticks each arriving less than 150 ms after the
previous one, the timer never fires and only `zoom` events are appended. -/
theorem wheelFold_chain (lo hi : ℚ) :
    ∀ (rest : List (ℚ × ℚ)) (s : WheelState) (tprev : ℚ),
      s.wheelActive = true →
      s.deadline = tprev + 150 →
      List.Chain (fun a b : ℚ => b - a < 150) tprev
        (rest.map Prod.fst) →
      (rest.foldl (wheelStep lo hi) s).wheelActive = true ∧
      ∃ zs : List ZoomEvent,
        (rest.foldl (wheelStep lo hi) s).out = s.out ++ zs ∧
        ∀ z ∈ zs, z = ZoomEvent.zoom := by
  intro rest
  induction rest with
  | nil =>
      intro s tprev hact hdl hchain
      exact ⟨hact, [], by simp, by simp⟩
  | cons e rest ih =>
      intro s tprev hact hdl hchain
      rw [List.map_cons] at hchain
      rcases List.chain_cons.mp hchain with ⟨hgap, hchain2⟩
      have hlt : e.1 < s.deadline := by
        rw [hdl]
        linarith
      obtain ⟨f1, f2, f3⟩ := wheelStep_no_fire lo hi s e hact hlt
      rw [List.foldl_cons]
      obtain ⟨g1, zs, g2, g3⟩ := ih (wheelStep lo hi s e) e.1 f1 f2 hchain2
      refine ⟨g1, ZoomEvent.zoom :: zs, ?_, ?_⟩
      · rw [g2, f3]
        simp
      · intro z hz
        rcases List.mem_cons.mp hz with hz | hz
        · exact hz
        · exact g3 z hz

/-- C7: a run of consecutive wheel ticks separated by less than 150 ms
emits exactly one `zoomstart` (on the first tick) and exactly one `zoomend`
(when the debounce timer finally expires), no matter how many ticks arrive;
intermediate ticks reset the timer without re-emitting `zoomstart`. -/
theorem wheel_debounce (lo hi : ℚ) (e : ℚ × ℚ) (rest : List (ℚ × ℚ))
    (hchain : List.Chain (fun a b : ℚ => b - a < 150) e.1
      (rest.map Prod.fst)) :
    (runWheel lo hi (e :: rest)).out.count ZoomEvent.zoomstart = 1 ∧
    (runWheel lo hi (e :: rest)).out.count ZoomEvent.zoomend = 1 ∧
    (runWheel lo hi (e :: rest)).out.head? = some ZoomEvent.zoomstart ∧
    (runWheel lo hi (e :: rest)).out.getLast? = some ZoomEvent.zoomend := by
  have hfirst : wheelStep lo hi initialWheelState e =
      { wheelActive := true
        deadline := e.1 + 150
        transform := clamp (1 * e.2) lo hi
        out := [ZoomEvent.zoomstart, ZoomEvent.zoom] } := by
    rw [wheelStep]
    simp [initialWheelState]
  obtain ⟨g1, zs, g2, g3⟩ := wheelFold_chain lo hi rest
    (wheelStep lo hi initialWheelState e) e.1
    (by rw [hfirst]) (by rw [hfirst]) hchain
  have hout : (runWheel lo hi (e :: rest)).out =
      [ZoomEvent.zoomstart, ZoomEvent.zoom] ++ zs ++ [ZoomEvent.zoomend] := by
    rw [runWheel, List.foldl_cons, wheelFinish, if_pos g1]
    simp only
    rw [g2, hfirst]
  rw [hout]
  have hzs_start : zs.count ZoomEvent.zoomstart = 0 := by
    rw [List.count_eq_zero]
    intro hmem
    have := g3 _ hmem
    simp at this
  have hzs_end : zs.count ZoomEvent.zoomend = 0 := by
    rw [List.count_eq_zero]
    intro hmem
    have := g3 _ hmem
    simp at this
  refine ⟨?_, ?_, ?_, ?_⟩
  · simp [List.count_append, hzs_start]
  · simp [List.count_append, hzs_end]
  · simp
  · rw [List.getLast?_concat]

/-- Witness for `wheel_debounce`: three wheel ticks at 0 ms, 100 ms and
190 ms (gaps 100 ms and 90 ms, both under the 150 ms debounce). -/
theorem wheel_debounce_witness :
    List.Chain (fun a b : ℚ => b - a < 150)
      ((0 : ℚ), (2 : ℚ)).1 ([((100 : ℚ), (2 : ℚ)),
        ((190 : ℚ), (1 : ℚ))].map Prod.fst) ∧
    ((runWheel 0 10 [(0, 2), (100, 2), (190, 1)]).out.count
        ZoomEvent.zoomstart = 1 ∧
      (runWheel 0 10 [(0, 2), (100, 2), (190, 1)]).out.count
        ZoomEvent.zoomend = 1 ∧
      (runWheel 0 10 [(0, 2), (100, 2), (190, 1)]).out.head? =
        some ZoomEvent.zoomstart ∧
      (runWheel 0 10 [(0, 2), (100, 2), (190, 1)]).out.getLast? =
        some ZoomEvent.zoomend) :=
  ⟨by
      constructor
      · norm_num
      · constructor
        · norm_num
        · exact List.Chain.nil,
    wheel_debounce 0 10 (0, 2) [(100, 2), (190, 1)]
      (by
        constructor
        · norm_num
        · constructor
          · norm_num
          · exact List.Chain.nil)⟩

theorem touchEndFold_eq :
    ∀ (changed : List ℕ) (st : TouchSlots),
      (∀ u v : TouchRec, st.touch0 = some u → st.touch1 = some v →
        u.identifier ≠ v.identifier) →
      changed.foldl touchEndStep st =
        { touch0 := optClear st.touch0 changed
          touch1 := optClear st.touch1 changed } := by
  intro changed
  induction changed with
  | nil =>
      intro st hdisj
      obtain ⟨o0, o1⟩ := st
      rw [List.foldl_nil]
      cases o0 <;> cases o1 <;> simp [optClear]
  | cons i changed ih =>
      intro st hdisj
      obtain ⟨o0, o1⟩ := st
      rw [List.foldl_cons]
      rcases o0 with - | t0 <;> rcases o1 with - | t1
      · -- both slots empty
        have hstep : touchEndStep ⟨none, none⟩ i = ⟨none, none⟩ := by
          simp [touchEndStep, touchMatches]
        rw [hstep, ih ⟨none, none⟩ (fun u v hu hv => Option.noConfusion hu)]
        simp [optClear]
      · -- only touch1 present
        by_cases hi1 : t1.identifier = i
        · have hstep : touchEndStep ⟨none, some t1⟩ i = ⟨none, none⟩ := by
            simp [touchEndStep, touchMatches, hi1]
          rw [hstep, ih ⟨none, none⟩ (fun u v hu hv => Option.noConfusion hu)]
          simp [optClear, hi1]
        · have hstep : touchEndStep ⟨none, some t1⟩ i = ⟨none, some t1⟩ := by
            simp [touchEndStep, touchMatches, hi1]
          rw [hstep, ih ⟨none, some t1⟩ (fun u v hu hv => Option.noConfusion hu)]
          simp [optClear, List.mem_cons, hi1]
      · -- only touch0 present
        by_cases hi0 : t0.identifier = i
        · have hstep : touchEndStep ⟨some t0, none⟩ i = ⟨none, none⟩ := by
            simp [touchEndStep, touchMatches, hi0]
          rw [hstep, ih ⟨none, none⟩ (fun u v hu hv => Option.noConfusion hu)]
          simp [optClear, hi0]
        · have hstep : touchEndStep ⟨some t0, none⟩ i = ⟨some t0, none⟩ := by
            simp [touchEndStep, touchMatches, hi0]
          rw [hstep, ih ⟨some t0, none⟩ (fun u v hu hv => Option.noConfusion hv)]
          simp [optClear, List.mem_cons, hi0]
      · -- both slots present
        have hne : t0.identifier ≠ t1.identifier := hdisj t0 t1 rfl rfl
        by_cases hi0 : t0.identifier = i
        · have hstep : touchEndStep ⟨some t0, some t1⟩ i =
              ⟨none, some t1⟩ := by
            simp [touchEndStep, touchMatches, hi0]
          rw [hstep, ih ⟨none, some t1⟩ (fun u v hu hv => Option.noConfusion hu)]
          have hne1 : t1.identifier ≠ i := fun he => hne (hi0.trans he.symm)
          simp [optClear, List.mem_cons, hi0, hne1]
        · by_cases hi1 : t1.identifier = i
          · have hstep : touchEndStep ⟨some t0, some t1⟩ i =
                ⟨some t0, none⟩ := by
              simp [touchEndStep, touchMatches, hi0, hi1]
            rw [hstep,
              ih ⟨some t0, none⟩ (fun u v hu hv => Option.noConfusion hv)]
            simp [optClear, List.mem_cons, hi0, hi1]
          · have hstep : touchEndStep ⟨some t0, some t1⟩ i =
                ⟨some t0, some t1⟩ := by
              simp [touchEndStep, touchMatches, hi0, hi1]
            rw [hstep, ih ⟨some t0, some t1⟩ hdisj]
            simp [optClear, List.mem_cons, hi0, hi1]

/-- C8 counterexample: in the two-touch state with identifiers 0 and 1,
ending the second touch (identifier 1) does **not** clear both records —
`touch0` survives, so the claim that either touch ending fully resets the
pinch session is false. -/
theorem touchEnd_second_touch_keeps_first :
    ¬ ((touchEnd
        { touch0 := some ⟨(0, 0), 0⟩, touch1 := some ⟨(1, 1), 1⟩ }
        [1]).1.touch0 = none ∧
      (touchEnd
        { touch0 := some ⟨(0, 0), 0⟩, touch1 := some ⟨(1, 1), 1⟩ }
        [1]).1.touch1 = none) := by
  decide

/-- C8 amended: from a two-touch state with distinct identifiers, a
`touchend` event clears **both** records exactly when the first slot
(`touch0`) is among the ended touches; when only the second slot ends,
`touch0` survives (falling back to a single-touch state); `zoomend` is
emitted on every `touchend` event. -/
theorem touchEnd_characterization (st : TouchSlots) (changed : List ℕ)
    (t0 t1 : TouchRec) (h0 : st.touch0 = some t0) (h1 : st.touch1 = some t1)
    (hne : t0.identifier ≠ t1.identifier) :
    (touchEnd st changed).2 = [ZoomEvent.zoomend] ∧
    (t0.identifier ∈ changed →
      (touchEnd st changed).1.touch0 = none ∧
      (touchEnd st changed).1.touch1 = none) ∧
    (t0.identifier ∉ changed → t1.identifier ∈ changed →
      (touchEnd st changed).1.touch0 = some t0 ∧
      (touchEnd st changed).1.touch1 = none) ∧
    (t0.identifier ∉ changed → t1.identifier ∉ changed →
      (touchEnd st changed).1.touch0 = some t0 ∧
      (touchEnd st changed).1.touch1 = some t1) := by
  have hdisj : ∀ u v : TouchRec, st.touch0 = some u → st.touch1 = some v →
      u.identifier ≠ v.identifier := by
    intro u v hu hv
    rw [h0] at hu
    rw [h1] at hv
    cases hu
    cases hv
    exact hne
  have hfold := touchEndFold_eq changed st hdisj
  have hres : (touchEnd st changed).1 =
      (if (changed.foldl touchEndStep st).touch1.isSome &&
          !(changed.foldl touchEndStep st).touch0.isSome then
        ({ touch0 := none, touch1 := none } : TouchSlots)
      else changed.foldl touchEndStep st) := rfl
  rw [hfold] at hres
  rw [h0, h1] at hres
  refine ⟨rfl, ?_, ?_, ?_⟩
  · intro hmem
    rw [hres]
    by_cases hm1 : t1.identifier ∈ changed
    · simp [optClear, hmem, hm1]
    · simp [optClear, hmem, hm1]
  · intro hnot hmem
    rw [hres]
    simp [optClear, hnot, hmem]
  · intro hnot0 hnot1
    rw [hres]
    simp [optClear, hnot0, hnot1]

/-- Witness for `touchEnd_characterization` at the two-touch state with
identifiers 0 and 1 and a `touchend` for identifier 0 (both cleared). -/
theorem touchEnd_characterization_witness :
    (({ touch0 := some ⟨(0, 0), 0⟩, touch1 := some ⟨(1, 1), 1⟩ } :
        TouchSlots).touch0 = some ⟨(0, 0), 0⟩ ∧
      ({ touch0 := some ⟨(0, 0), 0⟩, touch1 := some ⟨(1, 1), 1⟩ } :
        TouchSlots).touch1 = some ⟨(1, 1), 1⟩ ∧
      (⟨(0, 0), 0⟩ : TouchRec).identifier ≠
        (⟨(1, 1), 1⟩ : TouchRec).identifier) ∧
    ((touchEnd { touch0 := some ⟨(0, 0), 0⟩, touch1 := some ⟨(1, 1), 1⟩ }
        [0]).2 = [ZoomEvent.zoomend] ∧
    ((⟨(0, 0), 0⟩ : TouchRec).identifier ∈ [0] →
      (touchEnd { touch0 := some ⟨(0, 0), 0⟩, touch1 := some ⟨(1, 1), 1⟩ }
        [0]).1.touch0 = none ∧
      (touchEnd { touch0 := some ⟨(0, 0), 0⟩, touch1 := some ⟨(1, 1), 1⟩ }
        [0]).1.touch1 = none) ∧
    ((⟨(0, 0), 0⟩ : TouchRec).identifier ∉ [0] →
        (⟨(1, 1), 1⟩ : TouchRec).identifier ∈ [0] →
      (touchEnd { touch0 := some ⟨(0, 0), 0⟩, touch1 := some ⟨(1, 1), 1⟩ }
        [0]).1.touch0 = some ⟨(0, 0), 0⟩ ∧
      (touchEnd { touch0 := some ⟨(0, 0), 0⟩, touch1 := some ⟨(1, 1), 1⟩ }
        [0]).1.touch1 = none) ∧
    ((⟨(0, 0), 0⟩ : TouchRec).identifier ∉ [0] →
        (⟨(1, 1), 1⟩ : TouchRec).identifier ∉ [0] →
      (touchEnd { touch0 := some ⟨(0, 0), 0⟩, touch1 := some ⟨(1, 1), 1⟩ }
        [0]).1.touch0 = some ⟨(0, 0), 0⟩ ∧
      (touchEnd { touch0 := some ⟨(0, 0), 0⟩, touch1 := some ⟨(1, 1), 1⟩ }
        [0]).1.touch1 = some ⟨(1, 1), 1⟩)) :=
  ⟨⟨rfl, rfl, by decide⟩,
    touchEnd_characterization
      { touch0 := some ⟨(0, 0), 0⟩, touch1 := some ⟨(1, 1), 1⟩ } [0]
      ⟨(0, 0), 0⟩ ⟨(1, 1), 1⟩ rfl rfl (by decide)⟩

/-- C9 counterexample: after a pointer-out from a state where the
auction-mode tooltip is showing, the auction elements are still visible —
`clearPrice`/`onPointerOut` does not hide *all* overlay elements. -/
theorem onPointerOut_leaves_auction_visible :
    ¬ (allOverlaysHidden (onPointerOut
      ⟨true, true, true, true, true, true, true, true, true, true,
        true, true, true, some 5⟩) = true) := by
  decide

/-- C9 amended: `clearPrice`/`onPointerOut` hides all ten buy/sell overlay
elements and clears the cached last pointer event — so a subsequent
`update` does not re-run pointer handling — but leaves the three
auction-mode elements (price text, volume text, indicator) untouched. -/
theorem onPointerOut_characterization (s : OverlayVis) :
    (onPointerOut s).buyPriceText = false ∧
    (onPointerOut s).buyVolumeText = false ∧
    (onPointerOut s).buyVolRatioText = false ∧
    (onPointerOut s).sellPriceText = false ∧
    (onPointerOut s).sellVolumeText = false ∧
    (onPointerOut s).sellVolRatioText = false ∧
    (onPointerOut s).buyIndicator = false ∧
    (onPointerOut s).sellIndicator = false ∧
    (onPointerOut s).buyOverlay = false ∧
    (onPointerOut s).sellOverlay = false ∧
    (onPointerOut s).lastEvent = none ∧
    updateRerunsPointer (onPointerOut s) = false ∧
    (onPointerOut s).auctionPriceText = s.auctionPriceText ∧
    (onPointerOut s).auctionVolumeText = s.auctionVolumeText ∧
    (onPointerOut s).auctionIndicator = s.auctionIndicator :=
  ⟨rfl, rfl, rfl, rfl, rfl, rfl, rfl, rfl, rfl, rfl, rfl, rfl, rfl, rfl, rfl⟩

/-- C10 (failing evaluation): after one `update` with points `(100, 100)`
and `(400, 400)` (resolution 1, auction mode), two pointer moves perform
two index constructions — the Delaunay structure is rebuilt on every
pointer move, not built once per `update` (which itself builds none);
the first move at `(110, 110)` also matches the spec scenario, binding the
tooltip to the nearest point within the 50 px radius. -/
theorem auction_index_rebuilt_per_pointer_move :
    (auctionUpdate ⟨[], [], 1, 1, false, 0⟩
      [100, 400] [100, 400]).indexBuilds = 0 ∧
    (auctionPointerMove (auctionUpdate ⟨[], [], 1, 1, false, 0⟩
      [100, 400] [100, 400]) 110 110).indexBuilds = 1 ∧
    (auctionPointerMove (auctionPointerMove
      (auctionUpdate ⟨[], [], 1, 1, false, 0⟩ [100, 400] [100, 400])
      110 110) 120 120).indexBuilds = 2 ∧
    (auctionPointerMove (auctionUpdate ⟨[], [], 1, 1, false, 0⟩
      [100, 400] [100, 400]) 110 110).auctionVisible = true := by
  have hupd : auctionUpdate ⟨[], [], 1, 1, false, 0⟩ [100, 400] [100, 400] =
      ⟨[100, 400], [100, 400], 1, 1, false, 0⟩ := rfl
  have hmove1 : auctionPointerMove ⟨[100, 400], [100, 400], 1, 1, false, 0⟩
      110 110 = ⟨[100, 400], [100, 400], 1, 1, true, 1⟩ := by
    rw [auctionPointerMove]
    rw [if_pos (by norm_num)]
    rw [if_pos (by norm_num : (1 : ℚ) ≠ 0)]
    rw [if_pos (by norm_num [List.zip, nearestPointIdx, nearestPointAux,
      sqDistQ])]
  have hmove2 : auctionPointerMove ⟨[100, 400], [100, 400], 1, 1, true, 1⟩
      120 120 = ⟨[100, 400], [100, 400], 1, 1, true, 2⟩ := by
    rw [auctionPointerMove]
    rw [if_pos (by norm_num)]
    rw [if_pos (by norm_num : (1 : ℚ) ≠ 0)]
    rw [if_pos (by norm_num [List.zip, nearestPointIdx, nearestPointAux,
      sqDistQ])]
  rw [hupd, hmove1, hmove2]
  exact ⟨rfl, rfl, rfl, rfl⟩

end DepthChart
